import Mathlib

set_option linter.unusedVariables false

/-! Verification development for the on-disk PID-to-node-id index of
swh-graph (source file src/swh/graph/pid.py) against its specification.

Modelling conventions (shallow embedding of the Python source):
- Python byte strings and memory-mapped files are `List Nat`, one entry
  per byte.
- Python exceptions become the explicit error type `PyErr`; fallible
  functions return `Except PyErr α`.  Functions that mutate the mapped
  file return the post-state paired with an optional raised error, so
  that the bytes present at the moment an exception is raised are part
  of the model.
- Python slice reads `mm[a:b]` and mmap slice assignments
  `mm[a:b] = data` are `pySlice` and `pySetSlice` below, with Python
  semantics: bounds are clamped to the sequence length, and an mmap
  slice assignment requires the assigned data length to equal the
  (clamped) slice length, raising IndexError otherwise and writing
  nothing.
- The textual persistent-identifier parser and printer live in the
  external collaborator library swh.model.identifiers, which is not part
  of this repository; they are modelled from the specification (see
  `PersistentId` and `parse_persistent_identifier`).
-/

deriving instance DecidableEq for Except

/-- Python exceptions raised by the code under verification, tagged with
the role the specification gives them.  `fuelExhausted` is not a Python
exception: it is the sentinel of the structural recursion budget used to
embed the binary-search while loop, and the theorems only ever evaluate
the loop with a budget large enough that it is unreachable. -/
inductive PyErr
  /-- ValueError: the input text cannot be encoded as a PID. -/
  | invalidIdentifier
  /-- ValueError raised by PidType(type) on decode: unknown type byte. -/
  | malformedRecord
  /-- ValueError raised on open: size not a multiple of the record size. -/
  | corruptFile
  /-- ValueError raised on open: missing length when creating a new map. -/
  | configError
  /-- KeyError: forward lookup miss (NotFound). -/
  | keyError
  /-- IndexError: reverse index out of range, or mmap slice assignment of
  the wrong size. -/
  | indexError
  /-- struct.error: pack/unpack argument out of range or of wrong size. -/
  | structError
  /-- ZeroDivisionError: divmod with a zero record size. -/
  | zeroDivisionError
  /-- ValueError raised by mmap.mmap on a zero-size file: cannot mmap an
  empty file. -/
  | mmapEmpty
  /-- Sentinel of the loop-embedding recursion budget; not a Python
  exception, proven unreachable at the budgets the code supplies. -/
  | fuelExhausted
deriving DecidableEq, Repr

/-- Python exception class test: which `PyErr` values are ValueError
instances (used to model `except ValueError`). -/
def PyErr.isValueError : PyErr → Bool
  | .invalidIdentifier => true
  | .malformedRecord => true
  | .corruptFile => true
  | .configError => true
  | .mmapEmpty => true
  | _ => false

/-- File open modes accepted by `_OnDiskMap.__init__` (the source raises
ValueError for any other mode string; only the three valid mode strings
are representable here). -/
inductive PyMode
  | rb
  | wb
  | rbplus
deriving DecidableEq, Repr

/-- Python slice read `l[a:b]` for `0 ≤ a ≤ b` (clamped to the length of
`l`, as in Python). -/
def pySlice (l : List Nat) (a b : Nat) : List Nat :=
  (l.drop a).take (b - a)

/-- Python mmap slice assignment `l[a:b] = d`: the slice bounds are
clamped to the length of `l`; the assignment succeeds only when the
length of `d` equals the clamped slice length (an mmap cannot be
resized by slice assignment), otherwise IndexError is raised and
nothing is written. -/
def pySetSlice (l : List Nat) (a b : Nat) (d : List Nat) : Option (List Nat) :=
  let a' := min a l.length
  let b' := min b l.length
  if b' - a' = d.length then some (l.take a' ++ d ++ l.drop (max a' b')) else none

/-- Python comparison `a < b` on byte strings: unsigned lexicographic,
with a strict prefix comparing smaller. -/
def bytesLt : List Nat → List Nat → Bool
  | [], [] => false
  | [], _ :: _ => true
  | _ :: _, [] => false
  | a :: as, b :: bs => if a < b then true else if b < a then false else bytesLt as bs

/-- Big-endian unsigned value of a byte string. -/
def beUint (bs : List Nat) : Nat :=
  bs.foldl (fun acc b => acc * 256 + b) 0

/-- Big-endian byte string of width `w` for the value `n` (modulo
`256 ^ w`). -/
def beBytes : Nat → Nat → List Nat
  | 0, _ => []
  | w + 1, n => (n / 256 ^ w) % 256 :: beBytes w n

/-- Record sizes, from the module-level constants of pid.py. -/
def PID_BIN_SIZE : Nat := 22

/-- Size in bytes of the big-endian node-id integer (INT_BIN_SIZE). -/
def INT_BIN_SIZE : Nat := 8

/-- Types of existing PIDs, used to serialize the PID type as a one-byte
integer; the order drives the binary search in PID-indexed maps
(class PidType of pid.py). -/
inductive PidType
  | content
  | directory
  | origin
  | release
  | revision
  | snapshot
deriving DecidableEq, Repr

/-- Integer value of each PidType member (the Python enum values). -/
def PidType.value : PidType → Nat
  | .content => 1
  | .directory => 2
  | .origin => 3
  | .release => 4
  | .revision => 5
  | .snapshot => 6

/-- Symbolic name of each PidType member (the Python enum names). -/
def PidType.pyName : PidType → String
  | .content => "content"
  | .directory => "directory"
  | .origin => "origin"
  | .release => "release"
  | .revision => "revision"
  | .snapshot => "snapshot"

/-- Python enum lookup by name, PidType[s]; `none` models the KeyError
raised for an unrecognized name. -/
def PidType.ofName (s : String) : Option PidType :=
  if s = "content" then some .content
  else if s = "directory" then some .directory
  else if s = "origin" then some .origin
  else if s = "release" then some .release
  else if s = "revision" then some .revision
  else if s = "snapshot" then some .snapshot
  else none

/-- Python enum lookup by value, PidType(n); `none` models the ValueError
raised for an unrecognized value. -/
def PidType.ofValue (n : Nat) : Option PidType :=
  if n = 1 then some .content
  else if n = 2 then some .directory
  else if n = 3 then some .origin
  else if n = 4 then some .release
  else if n = 5 then some .revision
  else if n = 6 then some .snapshot
  else none

/-- Scheme version of the persistent-identifier syntax (PID_VERSION of
the collaborator library swh.model.identifiers: the textual scheme
defines a single version, 1). -/
def PID_VERSION : Nat := 1

/-- Modelled from the spec: a parsed textual persistent identifier.  The
textual parser and printer are the external collaborator library
swh.model.identifiers, which is not part of this repository; the spec
describes the collaborator as converting between the textual syntax and
the (scheme_version, object_type, digest) triple, so a textual
identifier is modelled as the triple it denotes: the constant namespace
of the syntax is left implicit, `object_type` is the textual type name,
and `object_id` is the 20-byte digest written as hex in the text. -/
structure PersistentId where
  scheme_version : Nat
  object_type : String
  object_id : List Nat
deriving DecidableEq, Repr

/-- Validity of a textual persistent identifier, as enforced by the
collaborator parser: the version tag is the single defined scheme
version, the object type is one of the six recognized type names, and
the digest is exactly 20 bytes. -/
def ValidPid (p : PersistentId) : Prop :=
  p.scheme_version = PID_VERSION ∧ (PidType.ofName p.object_type).isSome ∧
    p.object_id.length = 20 ∧ ∀ b ∈ p.object_id, b < 256

instance : DecidablePred ValidPid := fun p => by unfold ValidPid; infer_instance

/-- Modelled from the spec: `parse_persistent_identifier` of the external
collaborator library swh.model.identifiers.  It validates the textual
syntax and returns the parsed identifier, raising InvalidIdentifier
(a ValueError) when the text does not match the expected syntax or uses
an unrecognized object type. -/
def parse_persistent_identifier (pid : PersistentId) : Except PyErr PersistentId :=
  if ValidPid pid then .ok pid else .error .invalidIdentifier

/-- Function str_to_bytes of pid.py: convert a PID to a byte sequence by
parsing the text and packing scheme_version (1 byte), the PidType value
of the object type (1 byte) and the 20-byte digest, struct format
BB20s.  The B conversions require values below 256 (struct.error
otherwise) and the 20s conversion truncates or zero-pads its argument
to 20 bytes. -/
def str_to_bytes (pid : PersistentId) : Except PyErr (List Nat) :=
  match parse_persistent_identifier pid with
  | .error e => .error e
  | .ok p =>
    match PidType.ofName p.object_type with
    | none => .error .keyError
    | some t =>
      if p.scheme_version < 256 then
        .ok (p.scheme_version :: t.value ::
          (p.object_id.take 20 ++ List.replicate (20 - p.object_id.length) 0))
      else .error .structError

/-- Function bytes_to_str of pid.py: inverse of `str_to_bytes`.  It
unpacks the three fields (struct.error unless the input is exactly 22
bytes), maps the type byte back through PidType (ValueError, i.e.
MalformedRecord, if unknown) and rebuilds the identifier.  Note that the
source passes only object_type and object_id to the PersistentId
constructor, dropping the unpacked version byte: the collaborator
constructor fills in the default scheme version PID_VERSION. -/
def bytes_to_str (bs : List Nat) : Except PyErr PersistentId :=
  if bs.length = 22 then
    match bs with
    | _version :: type :: bin_digest =>
      match PidType.ofValue type with
      | some t =>
        .ok { scheme_version := PID_VERSION, object_type := t.pyName, object_id := bin_digest }
      | none => .error .malformedRecord
    | _ => .error .structError
  else .error .structError

/-- Total byte-level encoding of a PID; `str_to_bytes` returns exactly
this byte string on every identifier it accepts (lemma
`str_to_bytes_valid`). -/
def pidBytes (p : PersistentId) : List Nat :=
  p.scheme_version :: ((PidType.ofName p.object_type).map PidType.value).getD 0 ::
    (p.object_id.take 20 ++ List.replicate (20 - p.object_id.length) 0)

/-- Int64 range check used by struct.pack with format q. -/
def Int64Range (i : Int) : Prop :=
  -(2 ^ 63) ≤ i ∧ i < 2 ^ 63

instance : DecidablePred Int64Range := fun i => by unfold Int64Range; infer_instance

/-- Total byte-level big-endian encoding of an int64 value. -/
def int64Bytes (i : Int) : List Nat :=
  beBytes 8 (i % 2 ^ 64).toNat

/-- Python struct.pack with the big-endian 8-byte signed format q
(INT_BIN_FMT): struct.error when the value is out of the int64 range. -/
def pack_int64 (i : Int) : Except PyErr (List Nat) :=
  if Int64Range i then .ok (int64Bytes i) else .error .structError

/-- Python struct.unpack with the big-endian 8-byte signed format q
(INT_BIN_FMT): struct.error unless given exactly 8 bytes. -/
def unpack_int64 (bs : List Nat) : Except PyErr Int :=
  if bs.length = 8 then
    .ok (if beUint bs < 2 ^ 63 then (beUint bs : Int) else (beUint bs : Int) - 2 ^ 64)
  else .error .structError

/-- Resize a file to exactly `n` bytes, os.truncate: shrinking drops the
tail, growing zero-fills. -/
def pyTruncate (file : List Nat) (n : Nat) : List Nat :=
  file.take n ++ List.replicate (n - file.length) 0

/-- Creation phase of _OnDiskMap.__init__, before the file size is read:
in mode wb the file is truncated to `length * record_size` bytes
(ValueError, ConfigError, if `length` is missing); the other modes
leave the file as it is. -/
def openFileBytes (record_size : Nat) (file : List Nat) (mode : PyMode)
    (length : Option Nat) : Except PyErr (List Nat) :=
  match mode with
  | .wb =>
    match length with
    | none => .error .configError
    | some len => .ok (pyTruncate file (len * record_size))
  | _ => .ok file

/-- Constructor _OnDiskMap.__init__ of pid.py: open a file as an mmap-ed
sequence of fixed size records.  `file` is the current byte content of
the named file.  After the creation phase (`openFileBytes`), the file
size is read back and divmod by `record_size` recomputes the logical
length, raising ValueError (CorruptFile) on a nonzero remainder and
ZeroDivisionError if `record_size` is zero; finally mmap.mmap maps the
whole file, raising ValueError (cannot mmap an empty file) when the
size is zero.  On success the result is the mapped bytes paired with
the logical length. -/
def onDiskOpen (record_size : Nat) (file : List Nat) (mode : PyMode) (length : Option Nat) :
    Except PyErr (List Nat × Nat) :=
  match openFileBytes record_size file mode length with
  | .error e => .error e
  | .ok f =>
    if record_size = 0 then .error .zeroDivisionError
    else if f.length % record_size ≠ 0 then .error .corruptFile
    else if f.length = 0 then .error .mmapEmpty
    else .ok (f, f.length / record_size)

/-- Class PidToIntMap of pid.py: memory mapped map from PID to integer,
over 30-byte records (22-byte binary PID followed by an 8-byte
big-endian integer).  `mm` is the mapped byte content and `length` the
number of logical records fixed at open time. -/
structure PidToIntMap where
  mm : List Nat
  length : Nat
deriving DecidableEq, Repr

namespace PidToIntMap

/-- RECORD_SIZE of PidToIntMap: 30 bytes. -/
def RECORD_SIZE : Nat := PID_BIN_SIZE + INT_BIN_SIZE

/-- Constructor PidToIntMap.__init__: open through _OnDiskMap with the
30-byte record size. -/
def openMap (file : List Nat) (mode : PyMode) (length : Option Nat) :
    Except PyErr PidToIntMap :=
  match onDiskOpen RECORD_SIZE file mode length with
  | .error e => .error e
  | .ok (mm, len) => .ok { mm := mm, length := len }

/-- Method _get_bin_record: seek and return the binary record at a given
logical position, as the pair of its 22-byte PID portion and its 8-byte
integer portion. -/
def _get_bin_record (m : PidToIntMap) (pos : Nat) : List Nat × List Nat :=
  let rec_pos := pos * RECORD_SIZE
  let int_pos := rec_pos + PID_BIN_SIZE
  (pySlice m.mm rec_pos int_pos, pySlice m.mm int_pos (int_pos + INT_BIN_SIZE))

/-- Method _get_record: _get_bin_record plus deserialization of both
portions. -/
def _get_record (m : PidToIntMap) (pos : Nat) : Except PyErr (PersistentId × Int) :=
  match bytes_to_str (m._get_bin_record pos).1 with
  | .error e => .error e
  | .ok p =>
    match unpack_int64 (m._get_bin_record pos).2 with
    | .error e => .error e
    | .ok v => .ok (p, v)

/-- Class method write_record: append one encoded record (binary PID then
packed integer) to a plain output stream, here the byte list `f`.  The
PID bytes are written before the integer is packed, as in the source. -/
def write_record (f : List Nat) (pid : PersistentId) (int : Int) : Except PyErr (List Nat) :=
  match str_to_bytes pid with
  | .error e => .error e
  | .ok kb =>
    match pack_int64 int with
    | .error e => .error e
    | .ok ib => .ok (f ++ kb ++ ib)

/-- While loop of method _find, embedded with a structural recursion
budget `fuel`: binary search for `target` over the record array between
logical positions `lo` and `hi` inclusive (the loop variables min and
max of the source), comparing 22-byte keys lexicographically and
reading the 8-byte integer portion only on a key match.  The source
computes mid with Python floor division, which for nonnegative
operands is Int division here.  Exhausting the budget yields the
sentinel `fuelExhausted`; every call below supplies a budget larger
than the iteration count of the loop. -/
def findLoop (m : PidToIntMap) (target : List Nat) : Nat → Int → Int → Except PyErr (Int × Nat)
  | 0, _, _ => .error .fuelExhausted
  | fuel + 1, lo, hi =>
    if lo ≤ hi then
      let mid := (lo + hi) / 2
      let r := m._get_bin_record mid.toNat
      if bytesLt r.1 target then m.findLoop target fuel (mid + 1) hi
      else if bytesLt target r.1 then m.findLoop target fuel lo (mid - 1)
      else
        match unpack_int64 r.2 with
        | .error e => .error e
        | .ok v => .ok (v, mid.toNat)
    else .error .keyError

/-- Method _find: look up the integer identifier of a PID and its record
position.  The text is encoded first; a ValueError there is re-raised
as InvalidIdentifier.  The search runs over bounds [0, length - 1] with
a recursion budget of length + 1, strictly more than the number of
iterations of the while loop (each iteration shrinks the bracket, which
starts at length positions). -/
def _find (m : PidToIntMap) (pid : PersistentId) : Except PyErr (Int × Nat) :=
  match str_to_bytes pid with
  | .error e => .error (if e.isValueError then .invalidIdentifier else e)
  | .ok target => m.findLoop target (m.length + 1) 0 ((m.length : Int) - 1)

/-- Method __getitem__: the integer identifier of a PID (the position
returned by _find is dropped). -/
def getitem (m : PidToIntMap) (pid : PersistentId) : Except PyErr Int :=
  match m._find pid with
  | .error e => .error e
  | .ok (v, _) => .ok v

/-- Method __setitem__: find the record position of an existing key, then
overwrite its key bytes and value bytes in place.  The result is the
post-state of the map together with the raised exception, if any; on a
_find miss nothing has been written yet, and the two slice assignments
happen in source order. -/
def setitem (m : PidToIntMap) (pid : PersistentId) (int : Int) : PidToIntMap × Option PyErr :=
  match m._find pid with
  | .error e => (m, some e)
  | .ok (_, pos) =>
    let rec_pos := pos * RECORD_SIZE
    let int_pos := rec_pos + PID_BIN_SIZE
    match str_to_bytes pid with
    | .error e => (m, some e)
    | .ok kb =>
      match pySetSlice m.mm rec_pos int_pos kb with
      | none => (m, some .indexError)
      | some mm1 =>
        match pack_int64 int with
        | .error e => ({ m with mm := mm1 }, some e)
        | .ok ib =>
          match pySetSlice mm1 int_pos (int_pos + INT_BIN_SIZE) ib with
          | none => ({ m with mm := mm1 }, some .indexError)
          | some mm2 => ({ m with mm := mm2 }, none)

end PidToIntMap

/-- Sequence of deserialized records produced by a range-driven iterator:
the records at positions `start, start + 1, ..., start + count - 1`,
stopping at the first raised exception. -/
def exceptMapRange {α : Type} (f : Nat → Except PyErr α) : Nat → Nat → Except PyErr (List α)
  | _, 0 => .ok []
  | start, count + 1 =>
    match f start with
    | .error e => .error e
    | .ok a =>
      match exceptMapRange f (start + 1) count with
      | .error e => .error e
      | .ok rest => .ok (a :: rest)

/-- Method PidToIntMap.__iter__: yield the deserialized record at every
position 0, 1, ..., length - 1 in order. -/
def PidToIntMap.iterate (m : PidToIntMap) : Except PyErr (List (PersistentId × Int)) :=
  exceptMapRange m._get_record 0 m.length

/-- Class IntToPidMap of pid.py: memory mapped map from integer to PID,
over 22-byte records addressed positionally. -/
structure IntToPidMap where
  mm : List Nat
  length : Nat
deriving DecidableEq, Repr

namespace IntToPidMap

/-- RECORD_SIZE of IntToPidMap: 22 bytes. -/
def RECORD_SIZE : Nat := PID_BIN_SIZE

/-- Constructor IntToPidMap.__init__: open through _OnDiskMap with the
22-byte record size. -/
def openMap (file : List Nat) (mode : PyMode) (length : Option Nat) :
    Except PyErr IntToPidMap :=
  match onDiskOpen RECORD_SIZE file mode length with
  | .error e => .error e
  | .ok (mm, len) => .ok { mm := mm, length := len }

/-- Method _get_bin_record: the 22 bytes of the binary PID at a given
logical position. -/
def _get_bin_record (m : IntToPidMap) (pos : Nat) : List Nat :=
  let rec_pos := pos * RECORD_SIZE
  pySlice m.mm rec_pos (rec_pos + RECORD_SIZE)

/-- Class method write_record: append one encoded PID to a plain output
stream, here the byte list `f`. -/
def write_record (f : List Nat) (pid : PersistentId) : Except PyErr (List Nat) :=
  match str_to_bytes pid with
  | .error e => .error e
  | .ok kb => .ok (f ++ kb)

/-- Method __getitem__: a negative position is first translated by adding
the length (Python-style indexing from the end); IndexError (OutOfRange)
if the translated position is outside [0, length); otherwise the record
at the translated position is decoded. -/
def getitem (m : IntToPidMap) (pos : Int) : Except PyErr PersistentId :=
  let pos' := if pos < 0 then (m.length : Int) + pos else pos
  if 0 ≤ pos' ∧ pos' < (m.length : Int) then bytes_to_str (m._get_bin_record pos'.toNat)
  else .error .indexError

/-- Method __setitem__: encode the PID and overwrite the record slice at
the given position, with no bounds check of its own (the mmap slice
assignment raises IndexError when the 22 encoded bytes do not fit in
the clamped slice).  The result is the post-state of the map together
with the raised exception, if any. -/
def setitem (m : IntToPidMap) (pos : Nat) (pid : PersistentId) : IntToPidMap × Option PyErr :=
  let rec_pos := pos * RECORD_SIZE
  match str_to_bytes pid with
  | .error e => (m, some e)
  | .ok kb =>
    match pySetSlice m.mm rec_pos (rec_pos + RECORD_SIZE) kb with
    | none => (m, some .indexError)
    | some mm1 => ({ m with mm := mm1 }, none)

/-- Method __iter__: yield the pair of every position 0, 1, ...,
length - 1 and the decoded record there, in order. -/
def iterate (m : IntToPidMap) : Except PyErr (List (Nat × PersistentId)) :=
  exceptMapRange
    (fun pos =>
      match m.getitem (pos : Int) with
      | .error e => .error e
      | .ok p => .ok (pos, p))
    0 m.length

end IntToPidMap

/-- Sequential construction of a forward-index file: write the given
records in order through PidToIntMap.write_record, starting from the
stream content `f`. -/
def writeRecords (f : List Nat) : List (PersistentId × Int) → Except PyErr (List Nat)
  | [] => .ok f
  | r :: rest =>
    match PidToIntMap.write_record f r.1 r.2 with
    | .error e => .error e
    | .ok f1 => writeRecords f1 rest

/-! Basic lemmas about the byte-string comparison. -/

theorem bytesLt_irrefl (a : List Nat) : bytesLt a a = false := by
  induction a with
  | nil => rfl
  | cons x xs ih => simp [bytesLt, ih]

theorem bytesLt_asymm {a b : List Nat} (h : bytesLt a b = true) : bytesLt b a = false := by
  induction a generalizing b with
  | nil =>
    cases b with
    | nil => simp [bytesLt] at h
    | cons y ys => simp [bytesLt]
  | cons x xs ih =>
    cases b with
    | nil => simp [bytesLt] at h
    | cons y ys =>
      by_cases hxy : x < y
      · simp [bytesLt, hxy, Nat.lt_asymm hxy, Nat.ne_of_lt hxy]
      · by_cases hyx : y < x
        · simp [bytesLt, hxy, hyx] at h
        · have hne : x = y := Nat.le_antisymm (Nat.le_of_not_lt hyx) (Nat.le_of_not_lt hxy)
          subst hne
          simp only [bytesLt, if_neg hxy] at h ⊢
          exact ih h

theorem bytesLt_eq_of_not {a b : List Nat} (h1 : bytesLt a b = false)
    (h2 : bytesLt b a = false) : a = b := by
  induction a generalizing b with
  | nil =>
    cases b with
    | nil => rfl
    | cons y ys => simp [bytesLt] at h1
  | cons x xs ih =>
    cases b with
    | nil => simp [bytesLt] at h2
    | cons y ys =>
      by_cases hxy : x < y
      · simp [bytesLt, hxy] at h1
      · by_cases hyx : y < x
        · simp [bytesLt, hyx] at h2
        · have hne : x = y := Nat.le_antisymm (Nat.le_of_not_lt hyx) (Nat.le_of_not_lt hxy)
          subst hne
          simp only [bytesLt, if_neg hxy] at h1 h2
          rw [ih h1 h2]

/-! Lemmas about the PID codec. -/

theorem PidType.ofValue_value (t : PidType) : PidType.ofValue t.value = some t := by
  cases t <;> rfl

theorem PidType.pyName_of_ofName {s : String} {t : PidType} (h : PidType.ofName s = some t) :
    t.pyName = s := by
  unfold PidType.ofName at h
  split_ifs at h <;>
    (simp only [Option.some.injEq] at h; subst h; subst_vars; rfl)

theorem pidBytes_length (p : PersistentId) : (pidBytes p).length = 22 := by
  simp [pidBytes]
  omega

theorem str_to_bytes_valid (p : PersistentId) (h : ValidPid p) :
    str_to_bytes p = .ok (pidBytes p) := by
  obtain ⟨h1, h2, h3, h4⟩ := h
  obtain ⟨t, ht⟩ := Option.isSome_iff_exists.mp h2
  rw [str_to_bytes, parse_persistent_identifier, if_pos ⟨h1, h2, h3, h4⟩]
  simp only [ht]
  rw [if_pos (by rw [h1]; norm_num [PID_VERSION])]
  simp [pidBytes, ht]

theorem str_to_bytes_invalid (p : PersistentId) (h : ¬ ValidPid p) :
    str_to_bytes p = .error .invalidIdentifier := by
  rw [str_to_bytes, parse_persistent_identifier, if_neg h]

theorem pidBytes_eq_of_valid (p : PersistentId) (h : ValidPid p) :
    ∃ t, PidType.ofName p.object_type = some t ∧
      pidBytes p = p.scheme_version :: t.value :: p.object_id := by
  obtain ⟨h1, h2, h3, h4⟩ := h
  obtain ⟨t, ht⟩ := Option.isSome_iff_exists.mp h2
  refine ⟨t, ht, ?_⟩
  have htake : p.object_id.take 20 = p.object_id := List.take_of_length_le (by omega)
  have hrep : 20 - p.object_id.length = 0 := by omega
  simp [pidBytes, ht, htake, hrep]

theorem bytes_to_str_pidBytes (p : PersistentId) (h : ValidPid p) :
    bytes_to_str (pidBytes p) = .ok p := by
  obtain ⟨t, ht, hb⟩ := pidBytes_eq_of_valid p h
  obtain ⟨h1, h2, h3, h4⟩ := h
  rw [hb, bytes_to_str]
  rw [if_pos (by simp [h3])]
  simp only [PidType.ofValue_value]
  have hn : t.pyName = p.object_type := PidType.pyName_of_ofName ht
  cases p
  simp_all

/-! Lemmas about the int64 big-endian codec. -/

theorem beBytes_length (w n : Nat) : (beBytes w n).length = w := by
  induction w generalizing n with
  | zero => rfl
  | succ w ih => simp [beBytes, ih]

theorem beUint_foldl (bs : List Nat) (acc : Nat) :
    bs.foldl (fun a b => a * 256 + b) acc = acc * 256 ^ bs.length + beUint bs := by
  induction bs generalizing acc with
  | nil => simp [beUint]
  | cons c cs ih =>
    show cs.foldl _ (acc * 256 + c) = _
    rw [ih (acc * 256 + c)]
    have : beUint (c :: cs) = c * 256 ^ cs.length + beUint cs := by
      show cs.foldl _ (0 * 256 + c) = _
      rw [ih (0 * 256 + c)]
      ring
    rw [this]
    simp [List.length_cons]
    ring

theorem beUint_cons (b : Nat) (bs : List Nat) :
    beUint (b :: bs) = b * 256 ^ bs.length + beUint bs := by
  show bs.foldl _ (0 * 256 + b) = _
  rw [beUint_foldl]
  ring

theorem beUint_beBytes (w n : Nat) : beUint (beBytes w n) = n % 256 ^ w := by
  induction w generalizing n with
  | zero => simp [beBytes, beUint, Nat.mod_one]
  | succ w ih =>
    rw [beBytes, beUint_cons, beBytes_length, ih]
    have : (256 : Nat) ^ (w + 1) = 256 ^ w * 256 := by ring
    rw [this, Nat.mod_mul]
    ring

theorem int64Bytes_length (i : Int) : (int64Bytes i).length = 8 := beBytes_length 8 _

theorem pack_int64_ok (i : Int) (h : Int64Range i) : pack_int64 i = .ok (int64Bytes i) := by
  rw [pack_int64, if_pos h]

theorem unpack_int64_int64Bytes (i : Int) (h : Int64Range i) :
    unpack_int64 (int64Bytes i) = .ok i := by
  obtain ⟨h1, h2⟩ := h
  have h256 : (256 : Nat) ^ 8 = 2 ^ 64 := by norm_num
  have hval : beUint (int64Bytes i) = (i % 2 ^ 64).toNat := by
    rw [int64Bytes, beUint_beBytes, h256]
    have h64 : (2 : Nat) ^ 64 = 18446744073709551616 := by norm_num
    have h64i : (2 : Int) ^ 64 = 18446744073709551616 := by norm_num
    rw [h64]
    rw [h64i] at *
    omega
  rw [unpack_int64, if_pos (int64Bytes_length i), hval]
  have h63 : (2 : Nat) ^ 63 = 9223372036854775808 := by norm_num
  have h63i : (2 : Int) ^ 63 = 9223372036854775808 := by norm_num
  have h64i : (2 : Int) ^ 64 = 18446744073709551616 := by norm_num
  rw [h63, h63i, h64i] at *
  split <;> [skip; skip] <;> congr 1 <;> omega

/-! Lemmas about slice reads and mmap slice assignment. -/

theorem pySlice_getElem? (l : List Nat) (a b i : Nat) :
    (pySlice l a b)[i]? = if i < b - a then l[a + i]? else none := by
  unfold pySlice
  rw [List.getElem?_take]
  split
  · exact List.getElem?_drop l a i
  · rfl

theorem pySlice_congr {l l' : List Nat} (a b : Nat)
    (h : ∀ i, a ≤ i → i < b → l'[i]? = l[i]?) : pySlice l' a b = pySlice l a b := by
  apply List.ext_getElem?
  intro i
  rw [pySlice_getElem?, pySlice_getElem?]
  split
  · next hi => exact h (a + i) (Nat.le_add_right a i) (by omega)
  · rfl

theorem pySetSlice_fit {l d : List Nat} {a : Nat} (hfit : a + d.length ≤ l.length) :
    pySetSlice l a (a + d.length) d = some (l.take a ++ d ++ l.drop (a + d.length)) := by
  simp only [pySetSlice]
  have h1 : min a l.length = a := by omega
  have h2 : min (a + d.length) l.length = a + d.length := by omega
  rw [h1, h2, if_pos (by omega), Nat.max_eq_right (Nat.le_add_right a d.length)]

theorem pySetSlice_none {l d : List Nat} {a : Nat} (hd : d ≠ [])
    (hbig : l.length < a + d.length) :
    pySetSlice l a (a + d.length) d = none := by
  have hpos : 0 < d.length := List.length_pos.mpr hd
  simp only [pySetSlice]
  rw [if_neg (by omega)]

theorem pySetSlice_length {l d l' : List Nat} {a b : Nat}
    (h : pySetSlice l a b d = some l') : l'.length = l.length := by
  simp only [pySetSlice] at h
  split at h
  · next hc =>
    cases h
    simp only [List.length_append, List.length_take, List.length_drop]
    omega
  · cases h

theorem pySetSlice_getElem? {l d l' : List Nat} {a : Nat}
    (hfit : a + d.length ≤ l.length)
    (h : pySetSlice l a (a + d.length) d = some l') :
    ∀ i, i < a ∨ a + d.length ≤ i → l'[i]? = l[i]? := by
  rw [pySetSlice_fit hfit] at h
  cases h
  intro i hi
  have hta : (l.take a).length = a := List.length_take_of_le (by omega)
  rcases hi with hlt | hge
  · rw [List.getElem?_append, if_pos (by simp only [List.length_append, hta]; omega)]
    rw [List.getElem?_append, if_pos (by omega)]
    rw [List.getElem?_take, if_pos hlt]
  · rw [List.getElem?_append,
      if_neg (by simp only [List.length_append, hta]; omega)]
    simp only [List.length_append, hta]
    rw [List.getElem?_drop]
    congr 1
    omega

/-! Addressing of records inside a sequentially written file. -/

theorem flatten_length_uniform {n : Nat} :
    ∀ (chunks : List (List Nat)), (∀ c ∈ chunks, c.length = n) →
      chunks.flatten.length = chunks.length * n := by
  intro chunks
  induction chunks with
  | nil => simp
  | cons c cs ih =>
    intro h
    have hc : c.length = n := h c (by simp)
    simp only [List.flatten_cons, List.length_append, List.length_cons, hc,
      ih (fun x hx => h x (by simp [hx]))]
    ring

theorem flatten_drop_uniform {n : Nat} :
    ∀ (chunks : List (List Nat)) (j : Nat) (hj : j < chunks.length),
      (∀ c ∈ chunks, c.length = n) →
      chunks.flatten.drop (j * n) = chunks[j] ++ (chunks.drop (j + 1)).flatten := by
  intro chunks
  induction chunks with
  | nil => intro j hj; simp at hj
  | cons c cs ih =>
    intro j hj h
    have hc : c.length = n := h c (by simp)
    cases j with
    | zero => simp
    | succ j =>
      have hstep : (j + 1) * n = c.length + j * n := by rw [hc]; ring
      simp only [List.flatten_cons, hstep, List.drop_append, List.getElem_cons_succ,
        List.drop_succ_cons]
      exact ih j (by simpa using hj) (fun x hx => h x (by simp [hx]))

/-- Byte-level encoding of one forward-index record. -/
def rawRecord (r : PersistentId × Int) : List Nat :=
  pidBytes r.1 ++ int64Bytes r.2

theorem rawRecord_length (r : PersistentId × Int) : (rawRecord r).length = 30 := by
  simp [rawRecord, pidBytes_length, int64Bytes_length]

theorem getBinRecord_flatten (recs : List (PersistentId × Int)) (m : PidToIntMap)
    (hmm : m.mm = (recs.map rawRecord).flatten)
    (j : Nat) (hj : j < recs.length) :
    m._get_bin_record j = (pidBytes recs[j].1, int64Bytes recs[j].2) := by
  have hjm : j < (recs.map rawRecord).length := by simpa using hj
  have hdrop : m.mm.drop (j * 30) =
      rawRecord recs[j] ++ ((recs.map rawRecord).drop (j + 1)).flatten := by
    rw [hmm, flatten_drop_uniform (recs.map rawRecord) j hjm
      (by intro c hc; obtain ⟨r, _, rfl⟩ := List.mem_map.mp hc; exact rawRecord_length r)]
    congr 1
    exact List.getElem_map rawRecord
  have hrs : PidToIntMap.RECORD_SIZE = 30 := rfl
  have hps : PID_BIN_SIZE = 22 := rfl
  simp only [PidToIntMap._get_bin_record, hrs, hps, INT_BIN_SIZE]
  have e1 : j * 30 + 22 - j * 30 = 22 := by omega
  have e2 : j * 30 + 22 + 8 - (j * 30 + 22) = 8 := by omega
  have hdrop2 : m.mm.drop (j * 30 + 22) =
      int64Bytes recs[j].2 ++ ((recs.map rawRecord).drop (j + 1)).flatten := by
    have : m.mm.drop (j * 30 + 22) = (m.mm.drop (j * 30)).drop 22 := by
      rw [List.drop_drop]
    rw [this, hdrop, rawRecord, List.append_assoc, List.drop_left' (pidBytes_length _)]
  rw [Prod.mk.injEq]
  constructor
  · show pySlice m.mm (j * 30) (j * 30 + 22) = _
    unfold pySlice
    rw [e1, hdrop, rawRecord, List.append_assoc, List.take_left' (pidBytes_length _)]
  · show pySlice m.mm (j * 30 + 22) (j * 30 + 22 + 8) = _
    unfold pySlice
    rw [e2, hdrop2, List.take_left' (int64Bytes_length _)]

/-! Lemmas about the encoders and the sequential build. -/

theorem str_to_bytes_ok_valid {p : PersistentId} {bs : List Nat}
    (h : str_to_bytes p = .ok bs) : ValidPid p ∧ bs = pidBytes p := by
  by_cases hv : ValidPid p
  · rw [str_to_bytes_valid p hv] at h
    cases h
    exact ⟨hv, rfl⟩
  · rw [str_to_bytes_invalid p hv] at h
    cases h

theorem pack_int64_ok_range {i : Int} {bs : List Nat}
    (h : pack_int64 i = .ok bs) : Int64Range i ∧ bs = int64Bytes i := by
  by_cases hr : Int64Range i
  · rw [pack_int64_ok i hr] at h
    cases h
    exact ⟨hr, rfl⟩
  · rw [pack_int64, if_neg hr] at h
    cases h

theorem writeRecords_ok :
    ∀ (recs : List (PersistentId × Int)) (f file : List Nat),
      writeRecords f recs = .ok file →
      file = f ++ (recs.map rawRecord).flatten ∧
        ∀ r ∈ recs, ValidPid r.1 ∧ Int64Range r.2 := by
  intro recs
  induction recs with
  | nil =>
    intro f file h
    cases h
    simp
  | cons r rest ih =>
    intro f file h
    simp only [writeRecords, PidToIntMap.write_record] at h
    cases hs : str_to_bytes r.1 with
    | error e => rw [hs] at h; cases h
    | ok kb =>
      rw [hs] at h
      cases hp : pack_int64 r.2 with
      | error e => rw [hp] at h; cases h
      | ok ib =>
        rw [hp] at h
        obtain ⟨hv, rfl⟩ := str_to_bytes_ok_valid hs
        obtain ⟨hr, rfl⟩ := pack_int64_ok_range hp
        obtain ⟨hfile, hrest⟩ := ih _ _ h
        constructor
        · rw [hfile]
          simp [rawRecord]
        · intro x hx
          rcases List.mem_cons.mp hx with rfl | hx2
          · exact ⟨hv, hr⟩
          · exact hrest x hx2

/-! Lemmas about the iterator embedding. -/

theorem exceptMapRange_ok {α : Type} (f : Nat → Except PyErr α) :
    ∀ (count start : Nat) (l : List α), exceptMapRange f start count = .ok l →
      l.length = count ∧ ∀ k, k < count → ∃ a, f (start + k) = .ok a ∧ l[k]? = some a := by
  intro count
  induction count with
  | zero =>
    intro start l h
    cases h
    exact ⟨rfl, by omega⟩
  | succ count ih =>
    intro start l h
    simp only [exceptMapRange] at h
    cases ha : f start with
    | error e => rw [ha] at h; cases h
    | ok a =>
      rw [ha] at h
      cases hrest : exceptMapRange f (start + 1) count with
      | error e => rw [hrest] at h; cases h
      | ok rest =>
        rw [hrest] at h
        cases h
        obtain ⟨hlen, hel⟩ := ih (start + 1) rest hrest
        refine ⟨by simp [hlen], ?_⟩
        intro k hk
        cases k with
        | zero => exact ⟨a, by simpa using ha, by simp⟩
        | succ k =>
          obtain ⟨b, hb1, hb2⟩ := hel k (by omega)
          exact ⟨b, by rw [show start + (k + 1) = start + 1 + k by ring]; exact hb1,
            by simpa using hb2⟩

/-! Correctness lemmas for the binary-search loop. -/

theorem findLoop_found (m : PidToIntMap) (key : Nat → List Nat)
    (hkey : ∀ j, j < m.length → (m._get_bin_record j).1 = key j)
    (hsorted : ∀ i j, i < j → j < m.length → bytesLt (key i) (key j) = true)
    (i : Nat) (hiL : i < m.length) (v : Int)
    (hv : unpack_int64 (m._get_bin_record i).2 = .ok v) :
    ∀ (fuel : Nat) (lo hi : Int), 0 ≤ lo → hi ≤ (m.length : Int) - 1 →
      lo ≤ (i : Int) → (i : Int) ≤ hi → (hi + 1 - lo).toNat < fuel →
      m.findLoop (key i) fuel lo hi = .ok (v, i) := by
  intro fuel
  induction fuel with
  | zero => intro lo hi _ _ _ _ hf; omega
  | succ fuel ih =>
    intro lo hi hlo hhiL hloi hihi hf
    obtain ⟨a, rfl⟩ := Int.eq_ofNat_of_zero_le hlo
    have hle : (a : Int) ≤ hi := le_trans hloi hihi
    obtain ⟨b, rfl⟩ := Int.eq_ofNat_of_zero_le (le_trans hlo hle)
    obtain ⟨k, hmid⟩ : ∃ k : Nat, ((a : Int) + (b : Int)) / 2 = (k : Int) :=
      ⟨(((a : Int) + (b : Int)) / 2).toNat, by omega⟩
    have hmidt : (((a : Int) + (b : Int)) / 2).toNat = k := by omega
    have hak : a ≤ k := by omega
    have hkb : k ≤ b := by omega
    have hkL : k < m.length := by omega
    rw [PidToIntMap.findLoop, if_pos hle]
    simp only [hmid, hmidt, Int.toNat_ofNat, hkey k hkL]
    rcases Nat.lt_trichotomy k i with hki | hki | hki
    · rw [hsorted k i hki hiL, if_pos rfl]
      exact ih ((k : Int) + 1) (b : Int) (by omega) hhiL (by omega) hihi (by omega)
    · subst hki
      rw [bytesLt_irrefl]
      rw [if_neg (by simp)]
      rw [if_neg (by simp [bytesLt_irrefl])]
      rw [hv]
    · have hik : bytesLt (key i) (key k) = true := hsorted i k hki hkL
      rw [bytesLt_asymm hik]
      rw [if_neg (by simp)]
      rw [hik, if_pos rfl]
      exact ih (a : Int) ((k : Int) - 1) hlo (by omega) hloi (by omega) (by omega)

theorem findLoop_absent (m : PidToIntMap) (target : List Nat)
    (hne : ∀ j, j < m.length → (m._get_bin_record j).1 ≠ target) :
    ∀ (fuel : Nat) (lo hi : Int), 0 ≤ lo → hi ≤ (m.length : Int) - 1 →
      (hi + 1 - lo).toNat < fuel →
      m.findLoop target fuel lo hi = .error .keyError := by
  intro fuel
  induction fuel with
  | zero => intro lo hi _ _ hf; omega
  | succ fuel ih =>
    intro lo hi hlo hhiL hf
    rw [PidToIntMap.findLoop]
    by_cases hle : lo ≤ hi
    · rw [if_pos hle]
      obtain ⟨a, rfl⟩ := Int.eq_ofNat_of_zero_le hlo
      obtain ⟨b, rfl⟩ := Int.eq_ofNat_of_zero_le (le_trans hlo hle)
      obtain ⟨k, hmid⟩ : ∃ k : Nat, ((a : Int) + (b : Int)) / 2 = (k : Int) :=
        ⟨(((a : Int) + (b : Int)) / 2).toNat, by omega⟩
      have hmidt : (((a : Int) + (b : Int)) / 2).toNat = k := by omega
      have hab : a ≤ b := by exact_mod_cast hle
      have hak : a ≤ k := by omega
      have hkb : k ≤ b := by omega
      have hkL : k < m.length := by omega
      simp only [hmid, hmidt, Int.toNat_ofNat]
      by_cases h1 : bytesLt (m._get_bin_record k).1 target = true
      · rw [h1, if_pos rfl]
        exact ih ((k : Int) + 1) (b : Int) (by omega) hhiL (by omega)
      · rw [if_neg (by simpa using h1)]
        by_cases h2 : bytesLt target (m._get_bin_record k).1 = true
        · rw [h2, if_pos rfl]
          exact ih (a : Int) ((k : Int) - 1) (by omega) (by omega) (by omega)
        · exfalso
          exact hne k hkL
            (bytesLt_eq_of_not (by simpa using h1) (by simpa using h2))
    · rw [if_neg hle]

theorem findLoop_ok_pos (m : PidToIntMap) (target : List Nat) :
    ∀ (fuel : Nat) (lo hi : Int) (v : Int) (pos : Nat),
      0 ≤ lo → hi ≤ (m.length : Int) - 1 →
      m.findLoop target fuel lo hi = .ok (v, pos) →
      pos < m.length ∧ (m._get_bin_record pos).1 = target ∧
        unpack_int64 (m._get_bin_record pos).2 = .ok v := by
  intro fuel
  induction fuel with
  | zero => intro lo hi v pos _ _ h; rw [PidToIntMap.findLoop] at h; cases h
  | succ fuel ih =>
    intro lo hi v pos hlo hhiL h
    rw [PidToIntMap.findLoop] at h
    by_cases hle : lo ≤ hi
    · rw [if_pos hle] at h
      obtain ⟨a, rfl⟩ := Int.eq_ofNat_of_zero_le hlo
      obtain ⟨b, rfl⟩ := Int.eq_ofNat_of_zero_le (le_trans hlo hle)
      obtain ⟨k, hmid⟩ : ∃ k : Nat, ((a : Int) + (b : Int)) / 2 = (k : Int) :=
        ⟨(((a : Int) + (b : Int)) / 2).toNat, by omega⟩
      have hmidt : (((a : Int) + (b : Int)) / 2).toNat = k := by omega
      have hab : a ≤ b := by exact_mod_cast hle
      have hak : a ≤ k := by omega
      have hkb : k ≤ b := by omega
      have hkL : k < m.length := by omega
      simp only [hmid, hmidt, Int.toNat_ofNat] at h
      by_cases h1 : bytesLt (m._get_bin_record k).1 target = true
      · rw [h1, if_pos rfl] at h
        exact ih ((k : Int) + 1) (b : Int) v pos (by omega) hhiL h
      · rw [if_neg (by simpa using h1)] at h
        by_cases h2 : bytesLt target (m._get_bin_record k).1 = true
        · rw [h2, if_pos rfl] at h
          exact ih (a : Int) ((k : Int) - 1) v pos (by omega) (by omega) h
        · rw [if_neg (by simpa using h2)] at h
          cases hu : unpack_int64 (m._get_bin_record k).2 with
          | error e => rw [hu] at h; cases h
          | ok v2 =>
            rw [hu] at h
            cases h
            exact ⟨hkL,
              bytesLt_eq_of_not (by simpa using h1) (by simpa using h2), hu⟩
    · rw [if_neg hle] at h
      cases h

theorem findLoop_congr (m1 m2 : PidToIntMap) (target : List Nat)
    (hlen : m1.length = m2.length)
    (hkeys : ∀ j, j < m1.length → (m1._get_bin_record j).1 = (m2._get_bin_record j).1)
    (hvals : ∀ j, j < m1.length → (m1._get_bin_record j).1 = target →
      (m1._get_bin_record j).2 = (m2._get_bin_record j).2) :
    ∀ (fuel : Nat) (lo hi : Int), 0 ≤ lo → hi ≤ (m1.length : Int) - 1 →
      m1.findLoop target fuel lo hi = m2.findLoop target fuel lo hi := by
  intro fuel
  induction fuel with
  | zero => intro lo hi _ _; rw [PidToIntMap.findLoop, PidToIntMap.findLoop]
  | succ fuel ih =>
    intro lo hi hlo hhiL
    rw [PidToIntMap.findLoop, PidToIntMap.findLoop]
    by_cases hle : lo ≤ hi
    · rw [if_pos hle, if_pos hle]
      obtain ⟨a, rfl⟩ := Int.eq_ofNat_of_zero_le hlo
      obtain ⟨b, rfl⟩ := Int.eq_ofNat_of_zero_le (le_trans hlo hle)
      obtain ⟨k, hmid⟩ : ∃ k : Nat, ((a : Int) + (b : Int)) / 2 = (k : Int) :=
        ⟨(((a : Int) + (b : Int)) / 2).toNat, by omega⟩
      have hmidt : (((a : Int) + (b : Int)) / 2).toNat = k := by omega
      have hab : a ≤ b := by exact_mod_cast hle
      have hkL : k < m1.length := by omega
      simp only [hmid, hmidt, Int.toNat_ofNat]
      rw [← hkeys k hkL]
      by_cases h1 : bytesLt (m1._get_bin_record k).1 target = true
      · simp only [h1, reduceIte]
        exact ih ((k : Int) + 1) (b : Int) (by omega) hhiL
      · have h1f : bytesLt (m1._get_bin_record k).1 target = false := by simpa using h1
        simp only [h1f, reduceIte]
        by_cases h2 : bytesLt target (m1._get_bin_record k).1 = true
        · simp only [h2, reduceIte]
          exact ih (a : Int) ((k : Int) - 1) hlo (by omega)
        · have h2f : bytesLt target (m1._get_bin_record k).1 = false := by simpa using h2
          simp only [h2f, reduceIte]
          rw [hvals k hkL (bytesLt_eq_of_not h1f h2f)]
          simp only [Bool.false_eq_true, if_false]
    · rw [if_neg hle, if_neg hle]

/-! Derived lemmas about _find and the decoders. -/

theorem _find_invalid (m : PidToIntMap) (p : PersistentId) (hv : ¬ ValidPid p) :
    m._find p = .error .invalidIdentifier := by
  rw [PidToIntMap._find, str_to_bytes_invalid p hv]
  rfl

theorem _find_valid (m : PidToIntMap) (p : PersistentId) (hv : ValidPid p) :
    m._find p = m.findLoop (pidBytes p) (m.length + 1) 0 ((m.length : Int) - 1) := by
  rw [PidToIntMap._find, str_to_bytes_valid p hv]

theorem bytes_to_str_ne_indexError (bs : List Nat) : bytes_to_str bs ≠ .error .indexError := by
  match bs with
  | [] => simp [bytes_to_str]
  | [x] => simp [bytes_to_str]
  | _v :: t :: d =>
    rw [bytes_to_str]
    split
    · cases h : PidType.ofValue t <;> simp [h]
    · simp

/-! Concrete identifiers, forward-index files and reverse-index files used
to exercise the theorems on explicit inputs. -/

/-- Concrete valid PID (content object, digest of 0x01 bytes). -/
def pidA : PersistentId := ⟨1, "content", List.replicate 20 1⟩

/-- Concrete valid PID (content object, digest of zero bytes); its key
encoding precedes the one of `pidA`. -/
def pidB : PersistentId := ⟨1, "content", List.replicate 20 0⟩

/-- Concrete valid PID (directory object, digest of zero bytes); its key
encoding follows the ones of `pidA` and `pidB`. -/
def pidC : PersistentId := ⟨1, "directory", List.replicate 20 0⟩

/-- Concrete valid PID absent from every index built below. -/
def pidAbsent : PersistentId := ⟨1, "revision", List.replicate 20 3⟩

/-- Concrete invalid PID: its object type is not a recognized type name. -/
def pidInvalid : PersistentId := ⟨1, "folder", List.replicate 20 0⟩

/-- Records of a correctly sorted forward index. -/
def recsGood : List (PersistentId × Int) := [(pidB, 0), (pidA, 1), (pidC, 2)]

/-- Byte content of the sorted forward-index file. -/
def fileGood : List Nat := (recsGood.map rawRecord).flatten

/-- The sorted forward index, as opened from `fileGood`. -/
def mapGood : PidToIntMap := ⟨fileGood, 3⟩

/-- Variant of `mapGood` in which only the value bytes of the first
record (whose key differs from the key of `pidA`) are changed. -/
def mapGood2 : PidToIntMap := ⟨([(pidB, (9 : Int)), (pidA, 1), (pidC, 2)].map rawRecord).flatten, 3⟩

/-- Byte content of an out-of-order forward-index file: the record of
`pidA` is written before the record of `pidB` although the key of
`pidB` sorts first. -/
def fileBad : List Nat := rawRecord (pidA, 0) ++ rawRecord (pidB, 1)

/-- The out-of-order forward index, as opened from `fileBad`. -/
def mapBad : PidToIntMap := ⟨fileBad, 2⟩

/-- Byte content of a three-record reverse-index file. -/
def fileRev : List Nat := pidBytes pidB ++ pidBytes pidA ++ pidBytes pidC

/-- The three-record reverse index, as opened from `fileRev`. -/
def mapRev : IntToPidMap := ⟨fileRev, 3⟩

/-! Claim theorems. -/

/-- C1: codec round-trip.  For every valid textual persistent identifier,
the 22-byte encoding produced by str_to_bytes packs the scheme version
(1 byte), the object-type code (1 byte) and the 20-byte digest, and
decoding it with bytes_to_str yields the identifier again. -/
theorem C1_codec_roundtrip (p : PersistentId) (h : ValidPid p) :
    ∃ t, PidType.ofName p.object_type = some t ∧
      str_to_bytes p = .ok (p.scheme_version :: t.value :: p.object_id) ∧
      (p.scheme_version :: t.value :: p.object_id).length = 22 ∧
      bytes_to_str (p.scheme_version :: t.value :: p.object_id) = .ok p := by
  obtain ⟨t, ht, hb⟩ := pidBytes_eq_of_valid p h
  refine ⟨t, ht, ?_, ?_, ?_⟩
  · rw [str_to_bytes_valid p h, hb]
  · rw [← hb, pidBytes_length]
  · rw [← hb]
    exact bytes_to_str_pidBytes p h

/-- C1 witness: the round-trip theorem evaluated on the concrete
identifier `pidA`. -/
theorem C1_codec_roundtrip_witness :
    ValidPid pidA ∧
      ∃ t, PidType.ofName pidA.object_type = some t ∧
        str_to_bytes pidA = .ok (pidA.scheme_version :: t.value :: pidA.object_id) ∧
        (pidA.scheme_version :: t.value :: pidA.object_id).length = 22 ∧
        bytes_to_str (pidA.scheme_version :: t.value :: pidA.object_id) = .ok pidA :=
  ⟨by decide, C1_codec_roundtrip pidA (by decide)⟩

/-- C4: reverse-index negative addressing.  A negative node id is first
translated by adding the length; get(L-1) and get(-1) agree, get(0) and
get(-L) agree, OutOfRange (IndexError) is raised exactly when the
translated index falls outside [0, L), and in particular get(-(L+1))
raises OutOfRange. -/
theorem C4_reverse_negative_addressing (m : IntToPidMap) (hL : 0 < m.length) :
    m.getitem ((m.length : Int) - 1) = m.getitem (-1) ∧
    m.getitem 0 = m.getitem (-(m.length : Int)) ∧
    (∀ pos : Int,
      m.getitem pos = .error .indexError ↔
        ¬ (0 ≤ (if pos < 0 then (m.length : Int) + pos else pos) ∧
            (if pos < 0 then (m.length : Int) + pos else pos) < (m.length : Int))) ∧
    m.getitem (-((m.length : Int) + 1)) = .error .indexError := by
  have hg : ∀ a b : Int,
      (if a < 0 then (m.length : Int) + a else a) =
        (if b < 0 then (m.length : Int) + b else b) →
      m.getitem a = m.getitem b := by
    intro a b hab
    simp only [IntToPidMap.getitem, hab]
  have hiff : ∀ pos : Int,
      m.getitem pos = .error .indexError ↔
        ¬ (0 ≤ (if pos < 0 then (m.length : Int) + pos else pos) ∧
            (if pos < 0 then (m.length : Int) + pos else pos) < (m.length : Int)) := by
    intro pos
    simp only [IntToPidMap.getitem]
    by_cases hin : 0 ≤ (if pos < 0 then (m.length : Int) + pos else pos) ∧
        (if pos < 0 then (m.length : Int) + pos else pos) < (m.length : Int)
    · rw [if_pos hin]
      simp [bytes_to_str_ne_indexError, hin]
    · rw [if_neg hin]
      simp [hin]
  refine ⟨hg _ _ (by split_ifs <;> omega), hg _ _ (by split_ifs <;> omega), hiff, ?_⟩
  exact (hiff _).mpr (by split_ifs <;> omega)

/-- C4 witness: the reverse-addressing theorem evaluated on the concrete
three-record reverse index. -/
theorem C4_reverse_negative_addressing_witness :
    0 < mapRev.length ∧
      (mapRev.getitem ((mapRev.length : Int) - 1) = mapRev.getitem (-1) ∧
       mapRev.getitem 0 = mapRev.getitem (-(mapRev.length : Int)) ∧
       (∀ pos : Int,
         mapRev.getitem pos = .error .indexError ↔
           ¬ (0 ≤ (if pos < 0 then (mapRev.length : Int) + pos else pos) ∧
               (if pos < 0 then (mapRev.length : Int) + pos else pos) <
                 (mapRev.length : Int))) ∧
       mapRev.getitem (-((mapRev.length : Int) + 1)) = .error .indexError) :=
  ⟨by decide, C4_reverse_negative_addressing mapRev (by decide)⟩

/-- C8 counterexample: with record size 0 and a nonempty file (whose size
is not a multiple of 0), opening does fail, but with ZeroDivisionError
from divmod rather than with CorruptFile as the claim states. -/
theorem C8_size_validation_cex :
    onDiskOpen 0 [0] .rb none = .error .zeroDivisionError ∧
    onDiskOpen 0 [0] .rb none ≠ .error .corruptFile ∧
    ¬ ((0 : Nat) ∣ ([0] : List Nat).length) := by
  refine ⟨by decide, by decide, by decide⟩

/-- C8 (amended): for every file and every positive record size, in every
open mode, opening the map succeeds only if the size read at open time
(the size of `f`, the file content after the creation-phase truncation;
for the non-creating modes this is the given file itself) is an exact
multiple of the record size; if that size is not an exact multiple,
open fails with CorruptFile (ValueError); and on success the whole file
is mapped with logical length equal to that size divided by the record
size.  Success is not guaranteed by divisibility alone: a zero-size
file is a multiple of every record size yet fails to open, because
mmap.mmap raises ValueError on an empty file. -/
theorem C8_size_validation (rs : Nat) (file : List Nat) (mode : PyMode) (len : Option Nat)
    (f : List Nat) (hrs : 0 < rs) (hf : openFileBytes rs file mode len = .ok f) :
    ((∃ mm L, onDiskOpen rs file mode len = .ok (mm, L)) → rs ∣ f.length) ∧
    (¬ rs ∣ f.length → onDiskOpen rs file mode len = .error .corruptFile) ∧
    (∀ mm L, onDiskOpen rs file mode len = .ok (mm, L) →
      mm = f ∧ L = f.length / rs ∧ L * rs = f.length) := by
  have hopen : onDiskOpen rs file mode len =
      (if rs = 0 then .error .zeroDivisionError
       else if f.length % rs ≠ 0 then .error .corruptFile
       else if f.length = 0 then .error .mmapEmpty
       else .ok (f, f.length / rs)) := by
    rw [onDiskOpen, hf]
  rw [hopen, if_neg (by omega)]
  have hdvd : rs ∣ f.length ↔ f.length % rs = 0 := Nat.dvd_iff_mod_eq_zero
  by_cases hmod : f.length % rs = 0
  · rw [if_neg (by simpa using hmod)]
    refine ⟨fun _ => hdvd.mpr hmod, fun hnd => absurd (hdvd.mpr hmod) hnd, ?_⟩
    intro mm L h
    split at h
    · cases h
    · cases h
      exact ⟨rfl, rfl, Nat.div_mul_cancel (hdvd.mpr hmod)⟩
  · rw [if_pos (by simpa using hmod)]
    refine ⟨?_, fun _ => rfl, ?_⟩
    · rintro ⟨mm, L, h⟩
      cases h
    · intro mm L h
      cases h

/-- C8 witness: the amended size-validation theorem evaluated at record
size 30 on a 60-byte file opened read-only. -/
theorem C8_size_validation_witness :
    0 < 30 ∧
      openFileBytes 30 (List.replicate 60 0) .rb none = .ok (List.replicate 60 0) ∧
      (((∃ mm L, onDiskOpen 30 (List.replicate 60 0) .rb none = .ok (mm, L)) →
          (30 : Nat) ∣ (List.replicate 60 (0 : Nat)).length) ∧
        (¬ (30 : Nat) ∣ (List.replicate 60 (0 : Nat)).length →
          onDiskOpen 30 (List.replicate 60 0) .rb none = .error .corruptFile) ∧
        (∀ mm L, onDiskOpen 30 (List.replicate 60 0) .rb none = .ok (mm, L) →
          mm = List.replicate 60 0 ∧ L = (List.replicate 60 (0 : Nat)).length / 30 ∧
            L * 30 = (List.replicate 60 (0 : Nat)).length)) :=
  ⟨by decide, by decide,
    C8_size_validation 30 (List.replicate 60 0) .rb none (List.replicate 60 0)
      (by decide) (by decide)⟩

/-- C5: forward lookup error classification.  An input that cannot be
encoded (bad syntax or unrecognized object type) makes lookup fail with
InvalidIdentifier (ValueError); an encodable input whose encoding is
not the key of any record makes lookup fail with NotFound (KeyError). -/
theorem C5_lookup_error_classification (m : PidToIntMap) (p : PersistentId) :
    (¬ ValidPid p → m.getitem p = .error .invalidIdentifier) ∧
    (ValidPid p → (∀ j, j < m.length → (m._get_bin_record j).1 ≠ pidBytes p) →
      m.getitem p = .error .keyError) := by
  constructor
  · intro hv
    rw [PidToIntMap.getitem, _find_invalid m p hv]
  · intro hv habs
    rw [PidToIntMap.getitem, _find_valid m p hv,
      findLoop_absent m (pidBytes p) habs (m.length + 1) 0 ((m.length : Int) - 1)
        (by omega) (by omega) (by omega)]

/-- C5 witness: error classification evaluated on the concrete sorted
index, with an unrecognized-type identifier and a valid absent one. -/
theorem C5_lookup_error_classification_witness :
    ¬ ValidPid pidInvalid ∧ ValidPid pidAbsent ∧
    (∀ j, j < mapGood.length → (mapGood._get_bin_record j).1 ≠ pidBytes pidAbsent) ∧
    mapGood.getitem pidInvalid = .error .invalidIdentifier ∧
    mapGood.getitem pidAbsent = .error .keyError :=
  ⟨by decide, by decide, by decide,
    (C5_lookup_error_classification mapGood pidInvalid).1 (by decide),
    (C5_lookup_error_classification mapGood pidAbsent).2 (by decide) (by decide)⟩

/-- C7: sortedness is an unvalidated precondition.  Opening any nonempty
file of whole records succeeds with no sortedness check (an
out-of-order index holds at least two records, so it is nonempty; only
a zero-size file fails to open, with the mmap error), and on the
concrete out-of-order file built by writing the record of pidA before
the smaller-keyed record of pidB, looking up pidB (which was written)
incorrectly raises NotFound (KeyError). -/
theorem C7_sortedness_unvalidated :
    (∀ file : List Nat, file.length % 30 = 0 → file ≠ [] →
      PidToIntMap.openMap file .rb none = .ok ⟨file, file.length / 30⟩) ∧
    writeRecords [] [(pidA, 0), (pidB, 1)] = .ok fileBad ∧
    bytesLt (pidBytes pidB) (pidBytes pidA) = true ∧
    PidToIntMap.openMap fileBad .rb none = .ok mapBad ∧
    mapBad.getitem pidB = .error .keyError := by
  refine ⟨?_, by decide, by decide, by decide, by decide⟩
  intro file hmod hne
  have h30 : PidToIntMap.RECORD_SIZE = 30 := rfl
  simp only [PidToIntMap.openMap, onDiskOpen, openFileBytes, h30]
  rw [if_neg (by omega), if_neg (by simp [hmod]),
    if_neg (fun h => hne (List.length_eq_zero.mp h))]

/-- C7 witness: the open-never-validates half applied to the concrete
out-of-order file. -/
theorem C7_sortedness_unvalidated_witness :
    fileBad.length % 30 = 0 ∧ fileBad ≠ [] ∧
      PidToIntMap.openMap fileBad .rb none = .ok ⟨fileBad, fileBad.length / 30⟩ :=
  ⟨by decide, by decide, C7_sortedness_unvalidated.1 fileBad (by decide) (by decide)⟩

/-- C6: binary-search memory discipline, as a noninterference statement.
If two maps of equal length agree on the 22-byte key portion of every
record, and agree on the 8-byte value portion of every record whose key
equals the target, then the whole search (and hence the lookup result)
is identical — the probe sequence and the outcome never depend on the
value bytes of a non-matching record, which are left unread until a key
match. -/
theorem C6_search_touches_only_keys (m1 m2 : PidToIntMap)
    (hlen : m1.length = m2.length)
    (hkeys : ∀ j, j < m1.length → (m1._get_bin_record j).1 = (m2._get_bin_record j).1) :
    (∀ (target : List Nat) (fuel : Nat) (lo hi : Int), 0 ≤ lo →
      hi ≤ (m1.length : Int) - 1 →
      (∀ j, j < m1.length → (m1._get_bin_record j).1 = target →
        (m1._get_bin_record j).2 = (m2._get_bin_record j).2) →
      m1.findLoop target fuel lo hi = m2.findLoop target fuel lo hi) ∧
    (∀ p : PersistentId,
      (∀ j, j < m1.length → (m1._get_bin_record j).1 = pidBytes p →
        (m1._get_bin_record j).2 = (m2._get_bin_record j).2) →
      m1._find p = m2._find p ∧ m1.getitem p = m2.getitem p) := by
  have hmain : ∀ (target : List Nat) (fuel : Nat) (lo hi : Int), 0 ≤ lo →
      hi ≤ (m1.length : Int) - 1 →
      (∀ j, j < m1.length → (m1._get_bin_record j).1 = target →
        (m1._get_bin_record j).2 = (m2._get_bin_record j).2) →
      m1.findLoop target fuel lo hi = m2.findLoop target fuel lo hi := by
    intro target fuel lo hi hlo hhi hvals
    exact findLoop_congr m1 m2 target hlen hkeys hvals fuel lo hi hlo hhi
  refine ⟨hmain, ?_⟩
  intro p hvals
  have hfind : m1._find p = m2._find p := by
    by_cases hv : ValidPid p
    · rw [_find_valid m1 p hv, _find_valid m2 p hv, ← hlen]
      exact hmain (pidBytes p) (m1.length + 1) 0 ((m1.length : Int) - 1)
        (by omega) (by omega) hvals
    · rw [_find_invalid m1 p hv, _find_invalid m2 p hv]
  exact ⟨hfind, by rw [PidToIntMap.getitem, PidToIntMap.getitem, hfind]⟩

/-- C6 witness: the noninterference theorem evaluated on the concrete
sorted index and a variant that differs only in the value bytes of a
record whose key does not match the target. -/
theorem C6_search_touches_only_keys_witness :
    mapGood.length = mapGood2.length ∧
    (∀ j, j < mapGood.length →
      (mapGood._get_bin_record j).1 = (mapGood2._get_bin_record j).1) ∧
    (∀ j, j < mapGood.length → (mapGood._get_bin_record j).1 = pidBytes pidA →
      (mapGood._get_bin_record j).2 = (mapGood2._get_bin_record j).2) ∧
    (mapGood._find pidA = mapGood2._find pidA ∧
      mapGood.getitem pidA = mapGood2.getitem pidA) :=
  ⟨rfl, by decide, by decide,
    (C6_search_touches_only_keys mapGood mapGood2 rfl (by decide)).2 pidA (by decide)⟩

/-- Total key-at-position function of a record list (22-byte encoding of
the PID at the given position, empty past the end). -/
def keyOfRecs (recs : List (PersistentId × Int)) (j : Nat) : List Nat :=
  (recs.map (fun r => pidBytes r.1)).getD j []

theorem keyOfRecs_eq (recs : List (PersistentId × Int)) (j : Nat) (hj : j < recs.length) :
    keyOfRecs recs j = pidBytes recs[j].1 := by
  unfold keyOfRecs
  rw [List.getD_eq_getElem _ _ (by simpa using hj), List.getElem_map]

theorem openMap_ok {file : List Nat} {mode : PyMode} {len : Option Nat} {m : PidToIntMap}
    (h : PidToIntMap.openMap file mode len = .ok m) :
    onDiskOpen PidToIntMap.RECORD_SIZE file mode len = .ok (m.mm, m.length) := by
  rw [PidToIntMap.openMap] at h
  cases hod : onDiskOpen PidToIntMap.RECORD_SIZE file mode len with
  | error e => rw [hod] at h; cases h
  | ok r =>
    obtain ⟨mm, len2⟩ := r
    rw [hod] at h
    cases h
    rfl

theorem forward_index_getitem (recs : List (PersistentId × Int)) (m : PidToIntMap)
    (hmm : m.mm = (recs.map rawRecord).flatten) (hL : m.length = recs.length)
    (hprops : ∀ r ∈ recs, ValidPid r.1 ∧ Int64Range r.2)
    (hsorted : recs.Pairwise (fun a b => bytesLt (pidBytes a.1) (pidBytes b.1) = true)) :
    (∀ i, (hi : i < recs.length) → m.getitem recs[i].1 = .ok recs[i].2) ∧
    (∀ q : PersistentId, ValidPid q → (∀ r ∈ recs, pidBytes r.1 ≠ pidBytes q) →
      m.getitem q = .error .keyError) := by
  have hrec : ∀ j, (hj : j < recs.length) →
      m._get_bin_record j = (pidBytes recs[j].1, int64Bytes recs[j].2) :=
    fun j hj => getBinRecord_flatten recs m hmm j hj
  have hkey : ∀ j, j < m.length → (m._get_bin_record j).1 = keyOfRecs recs j := by
    intro j hj
    rw [hL] at hj
    rw [hrec j hj, keyOfRecs_eq recs j hj]
  have hsorted2 : ∀ i j, i < j → j < m.length →
      bytesLt (keyOfRecs recs i) (keyOfRecs recs j) = true := by
    intro i j hij hj
    rw [hL] at hj
    have hi : i < recs.length := lt_trans hij hj
    rw [keyOfRecs_eq recs i hi, keyOfRecs_eq recs j hj]
    exact List.pairwise_iff_getElem.mp hsorted i j hi hj hij
  constructor
  · intro i hi
    have hmem : recs[i] ∈ recs := List.getElem_mem hi
    have hvalid : ValidPid recs[i].1 := (hprops recs[i] hmem).1
    have hrange : Int64Range recs[i].2 := (hprops recs[i] hmem).2
    have hunp : unpack_int64 (m._get_bin_record i).2 = .ok recs[i].2 := by
      rw [hrec i hi]
      exact unpack_int64_int64Bytes recs[i].2 hrange
    rw [PidToIntMap.getitem, _find_valid m recs[i].1 hvalid,
      (keyOfRecs_eq recs i hi).symm,
      findLoop_found m (keyOfRecs recs) hkey hsorted2 i (by omega) recs[i].2 hunp
        (m.length + 1) 0 ((m.length : Int) - 1) (by omega) (by omega) (by omega)
        (by omega) (by omega)]
  · intro q hq habs
    have hne : ∀ j, j < m.length → (m._get_bin_record j).1 ≠ pidBytes q := by
      intro j hj
      rw [hL] at hj
      rw [hrec j hj]
      simpa using habs recs[j] (List.getElem_mem hj)
    rw [PidToIntMap.getitem, _find_valid m q hq,
      findLoop_absent m (pidBytes q) hne (m.length + 1) 0 ((m.length : Int) - 1)
        (by omega) (by omega) (by omega)]

/-- C2: binary-search correctness.  For every forward index file built by
writing records in strictly ascending order of their 22-byte key
encodings and then opened read-only, lookup returns exactly the node id
written for every written key, and raises NotFound (KeyError) for every
valid key whose encoding was not written. -/
theorem C2_binary_search (recs : List (PersistentId × Int)) (file : List Nat)
    (m : PidToIntMap)
    (hbuild : writeRecords [] recs = .ok file)
    (hopen : PidToIntMap.openMap file .rb none = .ok m)
    (hsorted : recs.Pairwise (fun a b => bytesLt (pidBytes a.1) (pidBytes b.1) = true)) :
    (∀ i, (hi : i < recs.length) → m.getitem recs[i].1 = .ok recs[i].2) ∧
    (∀ q : PersistentId, ValidPid q → (∀ r ∈ recs, pidBytes r.1 ≠ pidBytes q) →
      m.getitem q = .error .keyError) := by
  obtain ⟨hfile, hprops⟩ := writeRecords_ok recs [] file hbuild
  rw [List.nil_append] at hfile
  have hflen : file.length = recs.length * 30 := by
    rw [hfile, flatten_length_uniform (recs.map rawRecord)
      (by intro c hc; obtain ⟨r, _, rfl⟩ := List.mem_map.mp hc; exact rawRecord_length r)]
    simp
  have h30 : PidToIntMap.RECORD_SIZE = 30 := rfl
  have hod := openMap_ok hopen
  rw [h30] at hod
  simp only [onDiskOpen, openFileBytes] at hod
  rw [if_neg (by omega), if_neg (by simp [hflen])] at hod
  split at hod
  · cases hod
  · rw [Except.ok.injEq, Prod.mk.injEq] at hod
    obtain ⟨h1, h2⟩ := hod
    exact forward_index_getitem recs m (h1 ▸ hfile) (by omega) hprops hsorted

/-- C2 witness: binary-search correctness evaluated on the concrete
three-record sorted index. -/
theorem C2_binary_search_witness :
    writeRecords [] recsGood = .ok fileGood ∧
    PidToIntMap.openMap fileGood .rb none = .ok mapGood ∧
    recsGood.Pairwise (fun a b => bytesLt (pidBytes a.1) (pidBytes b.1) = true) ∧
    ((∀ i, (hi : i < recsGood.length) →
        mapGood.getitem recsGood[i].1 = .ok recsGood[i].2) ∧
      (∀ q : PersistentId, ValidPid q →
        (∀ r ∈ recsGood, pidBytes r.1 ≠ pidBytes q) →
        mapGood.getitem q = .error .keyError)) :=
  ⟨by decide, by decide, by decide,
    C2_binary_search recsGood fileGood mapGood (by decide) (by decide) (by decide)⟩

theorem pySetSlice_read {l d l' : List Nat} {a : Nat}
    (hfit : a + d.length ≤ l.length)
    (h : pySetSlice l a (a + d.length) d = some l') :
    pySlice l' a (a + d.length) = d := by
  rw [pySetSlice_fit hfit] at h
  cases h
  unfold pySlice
  have hta : (l.take a).length = a := List.length_take_of_le (by omega)
  rw [Nat.add_sub_cancel_left, List.append_assoc, List.drop_left' hta,
    List.take_left' rfl]

/-- C3: forward-index update frame and atomicity.  When the key is
present (find succeeds at position pos) and the new value is in the
int64 range, setitem succeeds, keeps the length and the file size,
rewrites only record pos (whose key slice still holds the key encoding
and whose value slice holds the new packed value), and leaves the bytes
of every other record identical.  When the key is valid but absent,
setitem raises NotFound (KeyError) and returns the map unchanged. -/
theorem C3_update_frame (m : PidToIntMap) (p : PersistentId) (v : Int)
    (hwf : m.mm.length = 30 * m.length) :
    (∀ vOld pos, m._find p = .ok (vOld, pos) → Int64Range v →
      ∃ m', m.setitem p v = (m', none) ∧ m'.length = m.length ∧
        m'.mm.length = m.mm.length ∧
        (∀ q, q < m.length → q ≠ pos →
          pySlice m'.mm (q * 30) (q * 30 + 30) = pySlice m.mm (q * 30) (q * 30 + 30)) ∧
        pySlice m'.mm (pos * 30) (pos * 30 + 22) = pidBytes p ∧
        pySlice m'.mm (pos * 30 + 22) (pos * 30 + 30) = int64Bytes v) ∧
    (ValidPid p → (∀ j, j < m.length → (m._get_bin_record j).1 ≠ pidBytes p) →
      m.setitem p v = (m, some .keyError)) := by
  constructor
  · intro vOld pos hfind hrange
    have hvalid : ValidPid p := by
      by_cases hv : ValidPid p
      · exact hv
      · rw [_find_invalid m p hv] at hfind
        cases hfind
    have hfind2 := hfind
    rw [_find_valid m p hvalid] at hfind2
    obtain ⟨hposL, hkeymatch, hunp⟩ :=
      findLoop_ok_pos m (pidBytes p) (m.length + 1) 0 ((m.length : Int) - 1) vOld pos
        (by omega) (by omega) hfind2
    have hkb : str_to_bytes p = .ok (pidBytes p) := str_to_bytes_valid p hvalid
    have h22 : (pidBytes p).length = 22 := pidBytes_length p
    have h8 : (int64Bytes v).length = 8 := int64Bytes_length v
    have hfitk : pos * 30 + (pidBytes p).length ≤ m.mm.length := by
      rw [h22, hwf]
      omega
    obtain ⟨mm1, hs1⟩ : ∃ mm1,
        pySetSlice m.mm (pos * 30) (pos * 30 + (pidBytes p).length) (pidBytes p) =
          some mm1 :=
      ⟨_, pySetSlice_fit hfitk⟩
    have hlen1 : mm1.length = m.mm.length := pySetSlice_length hs1
    have hfitv : (pos * 30 + 22) + (int64Bytes v).length ≤ mm1.length := by
      rw [h8, hlen1, hwf]
      omega
    obtain ⟨mm2, hs2⟩ : ∃ mm2,
        pySetSlice mm1 (pos * 30 + 22) ((pos * 30 + 22) + (int64Bytes v).length)
          (int64Bytes v) = some mm2 :=
      ⟨_, pySetSlice_fit hfitv⟩
    have hlen2 : mm2.length = mm1.length := pySetSlice_length hs2
    have hs1n : pySetSlice m.mm (pos * PidToIntMap.RECORD_SIZE)
        (pos * PidToIntMap.RECORD_SIZE + PID_BIN_SIZE) (pidBytes p) = some mm1 := by
      show pySetSlice m.mm (pos * 30) (pos * 30 + 22) (pidBytes p) = some mm1
      rw [← h22]
      exact hs1
    have hs2n : pySetSlice mm1 (pos * PidToIntMap.RECORD_SIZE + PID_BIN_SIZE)
        (pos * PidToIntMap.RECORD_SIZE + PID_BIN_SIZE + INT_BIN_SIZE)
        (int64Bytes v) = some mm2 := by
      show pySetSlice mm1 (pos * 30 + 22) (pos * 30 + 22 + 8) (int64Bytes v) = some mm2
      rw [← h8]
      exact hs2
    have hset : m.setitem p v = (⟨mm2, m.length⟩, none) := by
      simp only [PidToIntMap.setitem, hfind, hkb, hs1n, pack_int64_ok v hrange, hs2n]
    refine ⟨⟨mm2, m.length⟩, hset, rfl, by simp [hlen2, hlen1], ?_, ?_, ?_⟩
    · intro q hq hqpos
      apply pySlice_congr
      intro idx hidx1 hidx2
      have hstep2 : mm2[idx]? = mm1[idx]? := by
        apply pySetSlice_getElem? hfitv hs2
        omega
      have hstep1 : mm1[idx]? = m.mm[idx]? := by
        apply pySetSlice_getElem? hfitk hs1
        omega
      show mm2[idx]? = m.mm[idx]?
      rw [hstep2, hstep1]
    · show pySlice mm2 (pos * 30) (pos * 30 + 22) = pidBytes p
      have hmid : pySlice mm2 (pos * 30) (pos * 30 + 22) =
          pySlice mm1 (pos * 30) (pos * 30 + 22) := by
        apply pySlice_congr
        intro idx hidx1 hidx2
        apply pySetSlice_getElem? hfitv hs2
        omega
      rw [hmid, ← h22]
      exact pySetSlice_read hfitk hs1
    · show pySlice mm2 (pos * 30 + 22) (pos * 30 + 30) = int64Bytes v
      have harith : pos * 30 + 30 = (pos * 30 + 22) + (int64Bytes v).length := by
        rw [h8]
      rw [harith]
      exact pySetSlice_read hfitv hs2
  · intro hv habs
    have hf : m._find p = .error .keyError := by
      rw [_find_valid m p hv]
      exact findLoop_absent m (pidBytes p) habs (m.length + 1) 0 ((m.length : Int) - 1)
        (by omega) (by omega) (by omega)
    simp only [PidToIntMap.setitem, hf]

/-- C3 witness: the update theorem evaluated on the concrete sorted
index, updating the existing key pidA (record position 1) to value 7. -/
theorem C3_update_frame_witness :
    mapGood.mm.length = 30 * mapGood.length ∧
    mapGood._find pidA = .ok (1, 1) ∧ Int64Range 7 ∧
    (∃ m', mapGood.setitem pidA 7 = (m', none) ∧ m'.length = mapGood.length ∧
      m'.mm.length = mapGood.mm.length ∧
      (∀ q, q < mapGood.length → q ≠ 1 →
        pySlice m'.mm (q * 30) (q * 30 + 30) = pySlice mapGood.mm (q * 30) (q * 30 + 30)) ∧
      pySlice m'.mm (1 * 30) (1 * 30 + 22) = pidBytes pidA ∧
      pySlice m'.mm (1 * 30 + 22) (1 * 30 + 30) = int64Bytes 7) :=
  ⟨by decide, by decide, by decide,
    (C3_update_frame mapGood pidA 7 (by decide)).1 1 1 (by decide) (by decide)⟩

/-- C9: reverse-index set with an out-of-range position.  For every
well-formed reverse index and every position at or past the end, the
fixed-size slice assignment fails, an error is raised and the map is
returned unchanged; and for every reverse index, position and PID, set
never changes the byte length or the logical length of the file. -/
theorem C9_reverse_set_out_of_range (m : IntToPidMap) (pos : Nat) (p : PersistentId)
    (hwf : m.mm.length = 22 * m.length) (hpos : m.length ≤ pos) :
    (m.setitem pos p).2.isSome = true ∧ (m.setitem pos p).1 = m ∧
    (∀ (m2 : IntToPidMap) (pos2 : Nat) (p2 : PersistentId),
      (m2.setitem pos2 p2).1.mm.length = m2.mm.length ∧
      (m2.setitem pos2 p2).1.length = m2.length) := by
  have hgen : ∀ (m2 : IntToPidMap) (pos2 : Nat) (p2 : PersistentId),
      (m2.setitem pos2 p2).1.mm.length = m2.mm.length ∧
      (m2.setitem pos2 p2).1.length = m2.length := by
    intro m2 pos2 p2
    cases hs : str_to_bytes p2 with
    | error e => simp [IntToPidMap.setitem, hs]
    | ok kb =>
      cases hss : pySetSlice m2.mm (pos2 * IntToPidMap.RECORD_SIZE)
          (pos2 * IntToPidMap.RECORD_SIZE + IntToPidMap.RECORD_SIZE) kb with
      | none => simp [IntToPidMap.setitem, hs, hss]
      | some mm1 =>
        simp only [IntToPidMap.setitem, hs, hss]
        exact ⟨pySetSlice_length hss, trivial⟩
  have hfail : m.setitem pos p = (m, some .indexError) ∨
      ∃ e, str_to_bytes p = .error e ∧ m.setitem pos p = (m, some e) := by
    cases hs : str_to_bytes p with
    | error e => exact Or.inr ⟨e, rfl, by simp [IntToPidMap.setitem, hs]⟩
    | ok kb =>
      obtain ⟨hv, rfl⟩ := str_to_bytes_ok_valid hs
      have hnone : pySetSlice m.mm (pos * IntToPidMap.RECORD_SIZE)
          (pos * IntToPidMap.RECORD_SIZE + IntToPidMap.RECORD_SIZE)
          (pidBytes p) = none := by
        show pySetSlice m.mm (pos * 22) (pos * 22 + 22) (pidBytes p) = none
        rw [← pidBytes_length p]
        apply pySetSlice_none
        · simp [pidBytes]
        · rw [pidBytes_length, hwf]
          omega
      exact Or.inl (by simp [IntToPidMap.setitem, hs, hnone])
  rcases hfail with hf | ⟨e, _, hf⟩ <;> simp [hf, hgen]

/-- C9 witness: out-of-range set evaluated on the concrete three-record
reverse index at position 5. -/
theorem C9_reverse_set_out_of_range_witness :
    mapRev.mm.length = 22 * mapRev.length ∧ mapRev.length ≤ 5 ∧
    ((mapRev.setitem 5 pidA).2.isSome = true ∧ (mapRev.setitem 5 pidA).1 = mapRev ∧
      (∀ (m2 : IntToPidMap) (pos2 : Nat) (p2 : PersistentId),
        (m2.setitem pos2 p2).1.mm.length = m2.mm.length ∧
        (m2.setitem pos2 p2).1.length = m2.length)) :=
  ⟨by decide, by decide, C9_reverse_set_out_of_range mapRev 5 pidA (by decide) (by decide)⟩

/-- C10: length invariance.  The logical length fixed at open time
satisfies file size = length times record size; forward and reverse
in-place updates never change the logical length or the byte length of
the mapped file (on success or on error); and both iterators, when they
complete, yield exactly length-many elements in increasing position
order (element k coming from record position k). -/
theorem C10_length_invariance :
    (∀ (rs : Nat) (file : List Nat) (mode : PyMode) (len : Option Nat)
        (mm : List Nat) (L : Nat),
      onDiskOpen rs file mode len = .ok (mm, L) → mm.length = L * rs) ∧
    (∀ (m : PidToIntMap) (p : PersistentId) (v : Int),
      (m.setitem p v).1.length = m.length ∧
        (m.setitem p v).1.mm.length = m.mm.length) ∧
    (∀ (m : IntToPidMap) (pos : Nat) (p : PersistentId),
      (m.setitem pos p).1.length = m.length ∧
        (m.setitem pos p).1.mm.length = m.mm.length) ∧
    (∀ (m : PidToIntMap) (l : List (PersistentId × Int)), m.iterate = .ok l →
      l.length = m.length ∧
        ∀ k, k < m.length → ∃ r, m._get_record k = .ok r ∧ l[k]? = some r) ∧
    (∀ (m : IntToPidMap) (l : List (Nat × PersistentId)), m.iterate = .ok l →
      l.length = m.length ∧
        ∀ k, k < m.length → ∃ q, m.getitem (k : Int) = .ok q ∧ l[k]? = some (k, q)) := by
  refine ⟨?_, ?_, ?_, ?_, ?_⟩
  · intro rs file mode len mm L h
    have hcore : ∀ f : List Nat,
        (if rs = 0 then (.error .zeroDivisionError : Except PyErr (List Nat × Nat))
         else if f.length % rs ≠ 0 then .error .corruptFile
         else if f.length = 0 then .error .mmapEmpty
         else .ok (f, f.length / rs)) = .ok (mm, L) → mm.length = L * rs := by
      intro f hf
      split at hf
      · cases hf
      · split at hf
        · cases hf
        · next h0 hmod =>
          split at hf
          · cases hf
          · cases hf
            exact (Nat.div_mul_cancel (Nat.dvd_of_mod_eq_zero (by omega))).symm
    rcases mode with _ | _ | _
    · simp only [onDiskOpen, openFileBytes] at h
      exact hcore file h
    · rcases len with _ | n
      · simp only [onDiskOpen, openFileBytes] at h
        cases h
      · simp only [onDiskOpen, openFileBytes] at h
        exact hcore _ h
    · simp only [onDiskOpen, openFileBytes] at h
      exact hcore file h
  · intro m p v
    cases hf : m._find p with
    | error e => simp [PidToIntMap.setitem, hf]
    | ok r =>
      obtain ⟨vOld, pos⟩ := r
      cases hs : str_to_bytes p with
      | error e => simp [PidToIntMap.setitem, hf, hs]
      | ok kb =>
        cases hss : pySetSlice m.mm (pos * PidToIntMap.RECORD_SIZE)
            (pos * PidToIntMap.RECORD_SIZE + PID_BIN_SIZE) kb with
        | none => simp [PidToIntMap.setitem, hf, hs, hss]
        | some mm1 =>
          have hl1 := pySetSlice_length hss
          cases hp : pack_int64 v with
          | error e => simp [PidToIntMap.setitem, hf, hs, hss, hp, hl1]
          | ok ib =>
            cases hss2 : pySetSlice mm1
                (pos * PidToIntMap.RECORD_SIZE + PID_BIN_SIZE)
                (pos * PidToIntMap.RECORD_SIZE + PID_BIN_SIZE + INT_BIN_SIZE) ib with
            | none => simp [PidToIntMap.setitem, hf, hs, hss, hp, hss2, hl1]
            | some mm2 =>
              have hl2 := pySetSlice_length hss2
              simp [PidToIntMap.setitem, hf, hs, hss, hp, hss2, hl1, hl2]
  · intro m pos p
    cases hs : str_to_bytes p with
    | error e => simp [IntToPidMap.setitem, hs]
    | ok kb =>
      cases hss : pySetSlice m.mm (pos * IntToPidMap.RECORD_SIZE)
          (pos * IntToPidMap.RECORD_SIZE + IntToPidMap.RECORD_SIZE) kb with
      | none => simp [IntToPidMap.setitem, hs, hss]
      | some mm1 => simp [IntToPidMap.setitem, hs, hss, pySetSlice_length hss]
  · intro m l h
    obtain ⟨hlen, hel⟩ := exceptMapRange_ok m._get_record m.length 0 l h
    refine ⟨hlen, fun k hk => ?_⟩
    obtain ⟨r, h1, h2⟩ := hel k hk
    exact ⟨r, by simpa using h1, h2⟩
  · intro m l h
    obtain ⟨hlen, hel⟩ := exceptMapRange_ok _ m.length 0 l h
    refine ⟨hlen, fun k hk => ?_⟩
    obtain ⟨a, h1, h2⟩ := hel k hk
    simp only [Nat.zero_add] at h1
    cases hg : m.getitem (k : Int) with
    | error e => rw [hg] at h1; cases h1
    | ok q =>
      rw [hg] at h1
      cases h1
      exact ⟨q, rfl, h2⟩

/-- C10 witness: the invariance theorem evaluated on the concrete maps:
an in-range forward update, a reverse update, and both concrete
iterators. -/
theorem C10_length_invariance_witness :
    mapGood.iterate = .ok [(pidB, 0), (pidA, 1), (pidC, 2)] ∧
    mapRev.iterate = .ok [(0, pidB), (1, pidA), (2, pidC)] ∧
    ((mapGood.setitem pidA 7).1.length = mapGood.length ∧
      (mapGood.setitem pidA 7).1.mm.length = mapGood.mm.length) ∧
    ([(pidB, 0), (pidA, 1), (pidC, 2)] : List (PersistentId × Int)).length =
        mapGood.length ∧
    (∀ k, k < mapGood.length → ∃ r, mapGood._get_record k = .ok r ∧
      ([(pidB, 0), (pidA, 1), (pidC, 2)] : List (PersistentId × Int))[k]? = some r) :=
  ⟨by decide, by decide, C10_length_invariance.2.1 mapGood pidA 7,
    (C10_length_invariance.2.2.2.1 mapGood [(pidB, 0), (pidA, 1), (pidC, 2)]
      (by decide)).1,
    (C10_length_invariance.2.2.2.1 mapGood [(pidB, 0), (pidA, 1), (pidC, 2)]
      (by decide)).2⟩
